import Mathlib

set_option maxHeartbeats 1000000
set_option maxRecDepth 8000

/-!
Verification development for the resuMaster-AI client (src/App.tsx,
src/services/geminiService.ts and the alternative implementation in
src/unnamed/part_001).

The embedding models text as lists of characters.  Page coordinates, font
sizes and measured widths are integers in units of one hundredth of a point:
every constant of the source has at most two decimals, and each size multiple
the code computes (size*1.5, size*0.4, size*1.7 at the sizes 22, 12, 11, 10 it
passes) is exact in this unit, so the scaled-integer model agrees with exact
real arithmetic on them.  The JavaScript source computes in IEEE doubles, but
every comparison exercised below has slack far above the double rounding
error, so the integer model and the float model take the same branches on the
inputs considered here.  (The only inexact operation is the integer halving in
the centered-x offset, on which no claim depends.)  Font measurement
(font.widthOfTextAtSize) is an external library call and is modelled as an
explicit width-function parameter; concrete instances used in witnesses are
additive per-character metrics, as real font metrics are.
-/

namespace ResuMaster

/-- A line (or fragment) of text, modelled as a list of characters. -/
abbrev Line := List Char

/-- JavaScript whitespace as relevant here (the \s class restricted to the
four characters that actually occur in this pipeline). -/
def isWsChar (c : Char) : Bool := c = ' ' || c = '\t' || c = '\r' || c = '\n'

/-- A token is blank when JavaScript word.trim() is the empty string. -/
def isBlankL (l : Line) : Bool := l.all isWsChar

/-- JavaScript String.prototype.trim. -/
def trimL (l : Line) : Line := ((l.dropWhile isWsChar).reverse.dropWhile isWsChar).reverse

/-- Helper for splitting content on newline characters. -/
def splitLinesGo : Line → Line → List Line
  | acc, [] => [acc.reverse]
  | acc, c :: cs =>
    if c = '\n' then acc.reverse :: splitLinesGo [] cs
    else splitLinesGo (c :: acc) cs

/-- JavaScript content.split(newline). -/
def splitLines (l : Line) : List Line := splitLinesGo [] l

/-- JavaScript String.prototype.toLowerCase (per character). -/
def lowerL (l : Line) : Line := l.map Char.toLower

/-- Helper for the whitespace-preserving split: scans the input keeping the
current chunk (reversed) and whether that chunk is a whitespace run. -/
def jsSplitWsGo : Line → Bool → Line → List Line
  | acc, inWs, [] => if inWs then [acc.reverse, []] else [acc.reverse]
  | acc, inWs, c :: cs =>
    if isWsChar c = inWs then jsSplitWsGo (c :: acc) inWs cs
    else acc.reverse :: jsSplitWsGo [c] (isWsChar c) cs

/-- JavaScript text.split on the regex (\s+) with the capture kept: the result
alternates (possibly empty) non-whitespace pieces with maximal whitespace
runs, beginning and ending with a non-whitespace piece. -/
def jsSplitWs (l : Line) : List Line := jsSplitWsGo [] false l

/-- Given the characters after an opening pair of asterisks, find the lazily
matched inner text and the remainder after the first closing pair; the dot of
the regex does not match newline characters. -/
def closeStars : Line → Option (Line × Line)
  | [] => none
  | [_] => none
  | c1 :: c2 :: rest =>
    if c1 = '*' ∧ c2 = '*' then some ([], rest)
    else if c1 = '\n' ∨ c1 = '\r' then none
    else (closeStars (c2 :: rest)).map fun p => (c1 :: p.1, p.2)

/-- Does a match of the regex for paired asterisk delimiters start exactly at
the head of the input?  Returns the whole matched piece and the remainder. -/
def matchAt : Line → Option (Line × Line)
  | c1 :: c2 :: rest =>
    if c1 = '*' ∧ c2 = '*' then
      (closeStars rest).map fun p => ('*' :: '*' :: (p.1 ++ ['*', '*']), p.2)
    else none
  | _ => none

/-- Fuelled scanner implementing the JavaScript split with a captured group:
the result lists pieces in order, tagging each piece with whether it was a
regex match.  Fuel at least length+1 never runs out. -/
def splitBoldGoF : Nat → Line → Line → List (Line × Bool)
  | 0, acc, s => [(acc.reverse ++ s, false)]
  | _ + 1, acc, [] => [(acc.reverse, false)]
  | fuel + 1, acc, c :: rest =>
    match matchAt (c :: rest) with
    | some (piece, rest2) => (acc.reverse, false) :: (piece, true) :: splitBoldGoF fuel [] rest2
    | none => splitBoldGoF fuel (c :: acc) rest

/-- JavaScript text.split on the lazy paired-asterisk regex with the capture
kept, each piece tagged with whether it is a match. -/
def splitBoldTagged (l : Line) : List (Line × Bool) := splitBoldGoF (l.length + 1) [] l

/-- The untagged pieces, exactly as the JavaScript split returns them. -/
def splitBoldPieces (l : Line) : List Line := (splitBoldTagged l).map Prod.fst

/-- The code filters out empty strings from the split result. -/
def segmentsOf (l : Line) : List Line := (splitBoldPieces l).filter fun s => !s.isEmpty

/-- seg.startsWith and seg.endsWith on the two-asterisk delimiter, exactly as
the code re-derives boldness from the piece text. -/
def isBoldSeg (seg : Line) : Bool :=
  (['*', '*'].isPrefixOf seg) && (['*', '*'].isSuffixOf seg)

/-- JavaScript seg.slice(2, -2). -/
def cleanSeg (seg : Line) : Line := (seg.drop 2).take (seg.length - 4)

/-- An inline span: a run of text tagged bold or regular. -/
structure Span where
  text : Line
  isBold : Bool
  deriving DecidableEq

/-- How the code turns one split segment into a span. -/
def spanOfSeg (seg : Line) : Span :=
  if isBoldSeg seg then ⟨cleanSeg seg, true⟩ else ⟨seg, false⟩

/-- The ordered spans the renderer derives from a raw line. -/
def spansOf (l : Line) : List Span := (segmentsOf l).map spanOfSeg

/-- Re-insert the delimiters around bold spans (used to state that span
splitting removes precisely the paired delimiters). -/
def reconSpan (sp : Span) : Line :=
  if sp.isBold then '*' :: '*' :: (sp.text ++ ['*', '*']) else sp.text

/-- Does a paired-delimiter match occur anywhere in the line? -/
def hasPairedDelims (l : Line) : Bool :=
  (List.range (l.length + 1)).any fun i => (matchAt (l.drop i)).isSome

/-- The code's boldness re-derivation agrees with the split's own match
tagging on every nonempty non-match piece.  This holds for every line except
those with an unmatched segment that both starts and ends with the delimiter
(the literal segments of two or three asterisks). -/
def tagsConsistent (l : Line) : Bool :=
  (splitBoldTagged l).all fun p => p.2 || p.1.isEmpty || !isBoldSeg p.1

/-! ## Fonts, tokens and the greedy word wrap of drawRichText -/

/-- The two embedded faces (Helvetica and Helvetica-Bold). -/
inductive Font
  | regular
  | bold
  deriving DecidableEq

/-- font.widthOfTextAtSize, the external measurement primitive, as a
parameter: a width for a text at a font size, in hundredths of a point. -/
abbrev WidthFn := Font → Line → ℤ → ℤ

/-- A word-or-whitespace token of drawRichText, exactly the record the code
pushes: its text, the bold flag of its span, and its measured width. -/
structure Token where
  text : Line
  isBold : Bool
  width : ℤ
  deriving DecidableEq

/-- The tokens drawRichText derives from one segment: the bold flag and clean
text, then the whitespace-preserving word split, each word measured with the
font and size in effect for the span. -/
def segTokens (W : WidthFn) (defaultFont : Font) (size : ℤ) (seg : Line) : List Token :=
  let isBold := isBoldSeg seg
  let clean := if isBold then cleanSeg seg else seg
  let font := if isBold then Font.bold else defaultFont
  (jsSplitWs clean).map fun w => ⟨w, isBold, W font w size⟩

/-- All tokens of a line of text, in the order the nested forEach of
drawRichText visits them. -/
def lineTokens (W : WidthFn) (defaultFont : Font) (size : ℤ) (text : Line) : List Token :=
  (segmentsOf text).flatMap (segTokens W defaultFont size)

/-- One step of the greedy wrap: state is (finished lines, current line,
current line width).  A new line is opened exactly when the accumulated width
plus the token's width exceeds the maximum and the token is not blank; the
token is then pushed onto the (possibly fresh) current line either way. -/
def wrapGo (maxW : ℤ) : List (List Token) → List Token → ℤ → List Token → List (List Token)
  | done, cur, _, [] => done ++ [cur]
  | done, cur, curW, t :: ts =>
    if curW + t.width > maxW ∧ isBlankL t.text = false then
      wrapGo maxW (done ++ [cur]) [t] t.width ts
    else
      wrapGo maxW done (cur ++ [t]) (curW + t.width) ts

/-- The wrapped lines drawRichText builds (the code's lines array, which
starts as a single empty line). -/
def wrapTokens (maxW : ℤ) (toks : List Token) : List (List Token) := wrapGo maxW [] [] 0 toks

/-- The whole wrap pipeline of drawRichText for one text at one maximum
width. -/
def lineWrap (W : WidthFn) (defaultFont : Font) (size maxW : ℤ) (text : Line) : List (List Token) :=
  wrapTokens maxW (lineTokens W defaultFont size text)

/-- Cumulative measured width of a token sequence. -/
def sumW (L : List Token) : ℤ := (L.map Token.width).sum

/-- Every prefix of the line ending at a non-blank token fits within the
maximum width; the sum runs over all tokens of the prefix, accumulated from
acc. -/
def goodFrom (maxW : ℤ) : ℤ → List Token → Prop
  | _, [] => True
  | acc, t :: ts => (isBlankL t.text = true ∨ acc + t.width ≤ maxW) ∧ goodFrom maxW (acc + t.width) ts

/-- All tokens of the list are blank. -/
def allBlank (L : List Token) : Prop := ∀ u ∈ L, isBlankL u.text = true

/-- What the greedy wrap actually guarantees for an emitted line: either
every prefix ending at a non-blank token fits within the maximum width
(trailing or interior blank tokens may still push the full cumulative width
beyond it), or the line is a single oversized non-blank token followed only
by blank tokens. -/
def lineOk (maxW : ℤ) (L : List Token) : Prop :=
  goodFrom maxW 0 L ∨
    ∃ t l₂, L = t :: l₂ ∧ isBlankL t.text = false ∧ maxW < t.width ∧ allBlank l₂

/-! ## Page layout state and the placement pass -/

/-- Text colors used by the export pass. -/
inductive ColorKind
  | black
  | muted
  | heading
  deriving DecidableEq

/-- Horizontal alignment of a drawn line. -/
inductive Align
  | left
  | center
  deriving DecidableEq

def pageWidth : ℤ := 59528
def pageHeight : ℤ := 84189
def margin : ℤ := 5000

/-- One page.drawText call: which page, position, text and styling. -/
structure Placement where
  pageIdx : Nat
  x : ℤ
  y : ℤ
  text : Line
  size : ℤ
  font : Font
  color : ColorKind
  deriving DecidableEq

/-- The mutable layout state of handleDownloadPDF: number of pages allocated
so far (the current page is the last), the vertical cursor, and the append-only
records of text placements and horizontal rules. -/
structure LayoutState where
  pages : Nat
  cy : ℤ
  placed : List Placement
  rules : List (Nat × ℤ)
  deriving DecidableEq

/-- The options record of drawRichText with the defaults already resolved. -/
structure DrawOpts where
  size : ℤ
  defaultFont : Font
  color : ColorKind
  align : Align

def maxWidthRich : ℤ := pageWidth - margin * 2

/-- Place a run of (text, font, width) items left to right starting at x,
all at the same baseline y on the same page. -/
def placeRun (pageIdx : Nat) (y size : ℤ) (color : ColorKind) : ℤ → List (Line × Font × ℤ) → List Placement
  | _, [] => []
  | x, (t, f, w) :: rest => ⟨pageIdx, x, y, t, size, f, color⟩ :: placeRun pageIdx y size color (x + w) rest

/-- The per-wrapped-line pagination check of drawRichText: if the cursor is
below the fixed threshold of the bottom margin plus 20 points, allocate a new
page and reset the cursor to the top margin. -/
def pageBreakIfNeeded (st : LayoutState) : LayoutState :=
  if st.cy < margin + 2000 then { st with pages := st.pages + 1, cy := pageHeight - margin } else st

/-- Draw one wrapped line: pagination check, alignment offset, one placement
per token at increasing x, then advance the cursor by 1.5 times the size. -/
def drawWrappedLine (opts : DrawOpts) (st : LayoutState) (L : List Token) : LayoutState :=
  let st1 := pageBreakIfNeeded st
  let fullW := sumW L
  let x0 := if opts.align = Align.center then (pageWidth - fullW) / 2 else margin
  let pl := placeRun (st1.pages - 1) st1.cy opts.size opts.color x0
    (L.map fun t => (t.text, (if t.isBold then Font.bold else opts.defaultFont), t.width))
  { st1 with placed := st1.placed ++ pl, cy := st1.cy - opts.size * 3 / 2 }

/-- drawRichText: wrap the text, draw each wrapped line, then the trailing
0.4-size gap. -/
def drawRichText (W : WidthFn) (opts : DrawOpts) (st : LayoutState) (text : Line) : LayoutState :=
  let lns := lineWrap W opts.defaultFont opts.size maxWidthRich text
  let st2 := lns.foldl (drawWrappedLine opts) st
  { st2 with cy := st2.cy - opts.size * 2 / 5 }

/-! ## The bullet branch of handleDownloadPDF -/

/-- The record the bullet branch stores per word: text and resolved font. -/
structure BWord where
  text : Line
  font : Font
  deriving DecidableEq

def bulletMargin : ℤ := margin + 1500
def maxWidthBullet : ℤ := pageWidth - bulletMargin - margin

/-- The (word, width) stream of the bullet branch, fonts resolved per
segment against the regular face. -/
def bulletTokens (W : WidthFn) (content : Line) : List (BWord × ℤ) :=
  (segmentsOf content).flatMap fun seg =>
    let isB := isBoldSeg seg
    let clean := if isB then cleanSeg seg else seg
    let fnt := if isB then Font.bold else Font.regular
    (jsSplitWs clean).map fun w => (⟨w, fnt⟩, W fnt w 1000)

/-- Flush the pending bullet words at the current cursor, starting at the
bullet indent; widths are re-measured at flush time as the code does. -/
def flushBulletLine (W : WidthFn) (st : LayoutState) (lineWords : List BWord) : LayoutState :=
  let items := lineWords.map fun lw => (lw.text, lw.font, W lw.font lw.text 1000)
  let pl := placeRun (st.pages - 1) st.cy 1000 ColorKind.black bulletMargin items
  { st with placed := st.placed ++ pl }

/-- The word loop of the bullet branch: on overflow at a non-blank word,
flush the pending line at the current cursor, advance, then check for a page
break; the word is then appended to the pending line either way. -/
def bulletLoop (W : WidthFn) : LayoutState → List BWord → ℤ → List (BWord × ℤ) → LayoutState × List BWord
  | st, lineWords, _, [] => (st, lineWords)
  | st, lineWords, curW, (bw, wW) :: ts =>
    if curW + wW > maxWidthBullet ∧ isBlankL bw.text = false then
      let st := flushBulletLine W st lineWords
      let st := { st with cy := st.cy - 1500 }
      let st := pageBreakIfNeeded st
      bulletLoop W st [bw] wW ts
    else
      bulletLoop W st (lineWords ++ [bw]) (curW + wW) ts

/-- The whole bullet branch: glyph at the left margin with no page check,
the word loop, the final flush with no page check, then the 1.7-size gap. -/
def drawBullet (W : WidthFn) (st : LayoutState) (content : Line) : LayoutState :=
  let glyph : Placement := ⟨st.pages - 1, margin, st.cy, ['•'], 1200, Font.regular, ColorKind.black⟩
  let st := { st with placed := st.placed ++ [glyph] }
  let p := bulletLoop W st [] 0 (bulletTokens W content)
  let st := flushBulletLine W p.1 p.2
  { st with cy := st.cy - 1700 }

/-! ## The per-line dispatch and the whole export pass -/

/-- The positional contact-info heuristic exactly as coded: look at the raw
(untrimmed) previous line of the input array and test its literal prefix. -/
def isContactLine (lines : List Line) (i : Nat) : Bool :=
  decide (0 < i) && ['#', ' '].isPrefixOf (lines.getD (i - 1) [])

/-- A raw input line renders through the title branch exactly when its
trimmed form starts with the title marker. -/
def isTitleLine (raw : Line) : Bool := ['#', ' '].isPrefixOf (trimL raw)

/-- Process input line i: trim, then dispatch on the literal markers in the
code's order.  (Under each startsWith guard, the JavaScript replace of the
first occurrence of the marker is exactly dropping the prefix.) -/
def renderLine (W : WidthFn) (lines : List Line) (st : LayoutState) (i : Nat) : LayoutState :=
  let line := trimL (lines.getD i [])
  if line = [] then { st with cy := st.cy - 800 }
  else if ['#', ' '].isPrefixOf line then
    let st := drawRichText W ⟨2200, Font.bold, ColorKind.black, Align.center⟩ st (line.drop 2)
    { st with cy := st.cy - 1000 }
  else if ['#', '#', ' '].isPrefixOf line then
    let st := { st with cy := st.cy - 1200 }
    let st := drawRichText W ⟨1200, Font.bold, ColorKind.heading, Align.left⟩ st (line.drop 3)
    let st := { st with rules := st.rules ++ [(st.pages - 1, st.cy + 1400)] }
    { st with cy := st.cy - 600 }
  else if ['#', '#', '#', ' '].isPrefixOf line then
    drawRichText W ⟨1100, Font.bold, ColorKind.black, Align.left⟩ st (line.drop 4)
  else if ['-', ' '].isPrefixOf line ∨ ['*', ' '].isPrefixOf line then
    drawBullet W st (line.drop 2)
  else
    let contact := isContactLine lines i
    drawRichText W
      ⟨1000, Font.regular, (if contact then ColorKind.muted else ColorKind.black),
        (if contact then Align.center else Align.left)⟩ st line

/-- handleDownloadPDF's layout pass: abort before allocating any page when
the content trims to nothing; otherwise allocate the first page, start the
cursor at the top margin, and process each line in order. -/
def handleDownloadPDF (W : WidthFn) (content : Line) : Option LayoutState :=
  if trimL content = [] then none
  else some ((List.range (splitLines content).length).foldl
    (renderLine W (splitLines content)) ⟨1, pageHeight - margin, [], []⟩)

/-- The content selection of the export button: the editor text in edit mode;
in preview mode the stored result's content, falling back to the editor text
when it is absent or empty. -/
def contentToExport (step : Nat) (inputContent : Line) (resultContent : Option Line) : Line :=
  if step = 1 then inputContent
  else match resultContent with
    | some rc => if rc = [] then inputContent else rc
    | none => inputContent

/-! ## GeminiService.optimizeResume (src/services/geminiService.ts) -/

/-- Parsed JSON values, as far as the response handling can observe them. -/
inductive Json where
  | null
  | bool (b : Bool)
  | num (n : Int)
  | str (s : Line)
  | arr (items : List Json)
  | obj (fields : List (Line × Json))

/-- Field lookup in a parsed JSON object. -/
def getField (fields : List (Line × Json)) (k : Line) : Option Json :=
  (fields.find? fun p => p.1 = k).map Prod.snd

def optimizedContentKey : Line := ("optimizedContent").data
def keyChangesKey : Line := ("keyChanges").data
def suggestedSkillsKey : Line := ("suggestedSkills").data
def atsScoreKey : Line := ("atsScore").data

/-- Does a parsed value carry all four fields the OptimizationResult type
requires? -/
def hasRequiredFields : Json → Bool
  | Json.obj fields =>
    (getField fields optimizedContentKey).isSome &&
    (getField fields keyChangesKey).isSome &&
    (getField fields suggestedSkillsKey).isSome &&
    (getField fields atsScoreKey).isSome
  | _ => false

/-- The literal text the code substitutes for a missing or empty response
(the two characters of an empty JSON object). -/
def emptyObjText : Line := ['\x7b', '\x7d']

def optimizeResumeErr : Line := ("Failed to optimize resume. Please check your input and try again.").data

/-- JavaScript response.text or-else the empty-object literal: both an absent
text and an empty string are falsy and replaced. -/
def resolveResponseText : Option Line → Line
  | none => emptyObjText
  | some s => if s.isEmpty then emptyObjText else s

/-- The response handling of GeminiService.optimizeResume: JSON.parse the
(defaulted) response text and return the parsed value cast to the result type
with no field validation; any exception (in particular a JSON parse failure)
is caught and rethrown as the single failure message.  JSON.parse is the
external library primitive, passed as the parse parameter. -/
def optimizeResume (parse : Line → Option Json) (responseText : Option Line) : Except Line Json :=
  match parse (resolveResponseText responseText) with
  | some j => Except.ok j
  | none => Except.error optimizeResumeErr

/-- A parse function agreeing with JSON.parse on the empty-object literal,
used to instantiate the counterexample. -/
def parseEmptyObj : Line → Option Json :=
  fun t => if t = emptyObjText then some (Json.obj []) else none

/-! ## handleOptimize (src/App.tsx) -/

/-- The typed optimization result the UI consumes. -/
structure OptimizationResult where
  optimizedContent : Line
  keyChanges : List Line
  suggestedSkills : List Line
  atsScore : Int
  deriving DecidableEq

/-- The component state touched by handleOptimize. -/
structure AppState where
  step : Nat
  loading : Bool
  error : Option Line
  inputContent : Line
  targetTitle : Line
  jobDescription : Line
  context : Line
  result : Option OptimizationResult
  deriving DecidableEq

def requiredFieldsMsg : Line := ("Resume text and target job title are required.").data
def optimizeFailedMsg : Line := ("Optimization failed. Please try again.").data

/-- handleOptimize: validate the two required inputs, then run the service
call (its outcome passed as a parameter); on success store the result, sync
the editor with it and move to step 2; on failure set only the error message
(JavaScript err.message or-else the default).  setLoading(true) followed by
the finally setLoading(false) nets to loading = false on both paths. -/
def handleOptimize (outcome : Except Line OptimizationResult) (s : AppState) : AppState :=
  if trimL s.inputContent = [] ∨ trimL s.targetTitle = [] then
    { s with error := some requiredFieldsMsg }
  else
    match outcome with
    | Except.ok o =>
      { s with loading := false, error := none, result := some o,
               inputContent := o.optimizedContent, step := 2 }
    | Except.error m =>
      { s with loading := false,
               error := some (if m.isEmpty then optimizeFailedMsg else m) }

/-! ## handleFileUpload extension dispatch (src/App.tsx and src/unnamed/part_001) -/

/-- Where the extraction step routes an uploaded file. -/
inductive ExtractRoute
  | pdfRoute
  | docxRoute
  | textRoute
  | rejectRoute
  deriving DecidableEq

def pdfExt : Line := (".pdf").data
def docxExt : Line := (".docx").data
def txtExt : Line := (".txt").data
def mdExt : Line := (".md").data

/-- The extension dispatch of handleFileUpload in src/App.tsx: a lowercased
name ending in .pdf or .docx goes to the respective extractor, and every
other file is decoded as plain text and accepted — there is no rejection
branch. -/
def handleFileUpload (fileName : Line) : ExtractRoute :=
  let f := lowerL fileName
  if pdfExt.isSuffixOf f then ExtractRoute.pdfRoute
  else if docxExt.isSuffixOf f then ExtractRoute.docxRoute
  else ExtractRoute.textRoute

/-- The extension dispatch of handleFileUpload in src/unnamed/part_001: only
.txt and .md fall through to text decoding, and anything else throws the
unsupported-file-type error. -/
def handleFileUploadVariant (fileName : Line) : ExtractRoute :=
  let f := lowerL fileName
  if pdfExt.isSuffixOf f then ExtractRoute.pdfRoute
  else if docxExt.isSuffixOf f then ExtractRoute.docxRoute
  else if txtExt.isSuffixOf f || mdExt.isSuffixOf f then ExtractRoute.textRoute
  else ExtractRoute.rejectRoute

/-! ## Concrete instances used in counterexamples and witnesses -/

/-- A monospace metric: every character one centi-point wide, at every size.
Any nonnegative additive metric is a legitimate instance of the measurement
primitive. -/
def Wlen : WidthFn := fun _ s _ => (s.length : ℤ)

/-- A metric under which the single character W is wider than a whole rich
line while other characters are narrow. -/
def Wwide : WidthFn := fun _ s _ => if s = ['W'] then 100000 else (s.length : ℤ)

/-- Ninety-three blank lines followed by one bullet line. -/
def blanksThenBullet : Line :=
  List.intercalate ['\n'] (List.replicate 93 ([] : Line) ++ [['-', ' ', 'x']])

/-- Ninety blank lines followed by one title line. -/
def blanksThenTitle : Line :=
  List.intercalate ['\n'] (List.replicate 90 ([] : Line) ++ [['#', ' ', 'T']])

/-- A title line carrying a leading space, then a plain body line. -/
def indentedTitleThenBody : Line := [' ', '#', ' ', 'T', '\n', 'b']

/-- The initial layout state of an export pass: one page, cursor at the top
margin, nothing placed. -/
def st0 : LayoutState := ⟨1, pageHeight - margin, [], []⟩

/-- A layout state whose cursor has reached the page bottom. -/
def stLow : LayoutState := ⟨1, 0, [], []⟩

/-- The resolved option record of a plain body line. -/
def bodyOpts : DrawOpts := ⟨1000, Font.regular, ColorKind.black, Align.left⟩

/-- A sample one-character token. -/
def xTok : Token := ⟨['x'], false, 100⟩

/-- The placement drawRichText produces for the text hi from the initial
state under Wlen. -/
def hiPlacement : Placement := ⟨0, margin, pageHeight - margin, ['h', 'i'], 1000, Font.regular, ColorKind.black⟩

/-- The placement drawWrappedLine produces for the single token xTok from
stLow: on the freshly allocated page, at the top margin. -/
def xPlacement : Placement := ⟨1, margin, pageHeight - margin, ['x'], 1000, Font.regular, ColorKind.black⟩

/-- A sample application state whose two required inputs are filled. -/
def sampleState : AppState :=
  ⟨1, false, none, ['r'], ['t'], [], [], none⟩

/-- Sample lines for the contact-heuristic witness: a title with no
surrounding whitespace, then a body line. -/
def titleThenBody : List Line := [['#', ' ', 'x'], ['y']]

/-! # Theorems -/

/-! ## Word-wrap lemmas -/

theorem sumW_nil : sumW [] = 0 := rfl

theorem sumW_cons (t : Token) (L : List Token) : sumW (t :: L) = t.width + sumW L := by
  simp [sumW]

theorem sumW_append_single (L : List Token) (t : Token) :
    sumW (L ++ [t]) = sumW L + t.width := by
  simp [sumW]

theorem sumW_nonneg (L : List Token) (h : ∀ u ∈ L, 0 ≤ u.width) : 0 ≤ sumW L := by
  unfold sumW
  apply List.sum_nonneg
  intro x hx
  rcases List.mem_map.mp hx with ⟨u, hu, rfl⟩
  exact h u hu

theorem goodFrom_append (maxW : ℤ) (t : Token) :
    ∀ (L : List Token) (a : ℤ),
      goodFrom maxW a (L ++ [t]) ↔
        goodFrom maxW a L ∧ (isBlankL t.text = true ∨ a + sumW L + t.width ≤ maxW) := by
  intro L
  induction L with
  | nil =>
    intro a
    simp [goodFrom, sumW_nil]
  | cons u L ih =>
    intro a
    rw [List.cons_append]
    rw [show goodFrom maxW a (u :: (L ++ [t])) =
        ((isBlankL u.text = true ∨ a + u.width ≤ maxW) ∧ goodFrom maxW (a + u.width) (L ++ [t]))
      from rfl]
    rw [show goodFrom maxW a (u :: L) =
        ((isBlankL u.text = true ∨ a + u.width ≤ maxW) ∧ goodFrom maxW (a + u.width) L)
      from rfl]
    rw [ih (a + u.width), sumW_cons]
    constructor
    · rintro ⟨h1, h2, h3⟩
      exact ⟨⟨h1, h2⟩, h3.imp (fun h => h) (fun h => by linarith)⟩
    · rintro ⟨⟨h1, h2⟩, h3⟩
      exact ⟨h1, h2, h3.imp (fun h => h) (fun h => by linarith)⟩

theorem lineOk_nil (maxW : ℤ) : lineOk maxW [] := Or.inl trivial

theorem lineOk_single (maxW : ℤ) (t : Token) : lineOk maxW [t] := by
  by_cases hb : isBlankL t.text = true
  · exact Or.inl ⟨Or.inl hb, trivial⟩
  · by_cases hw : t.width ≤ maxW
    · exact Or.inl ⟨Or.inr (by simpa using hw), trivial⟩
    · exact Or.inr ⟨t, [], rfl, by simpa using hb, by omega, fun u hu => by simp at hu⟩

theorem wrapGo_lineOk (maxW : ℤ) :
    ∀ (ts : List Token) (done : List (List Token)) (cur : List Token) (w : ℤ),
      (∀ t ∈ ts, 0 ≤ t.width) →
      (∀ u ∈ cur, 0 ≤ u.width) →
      (∀ L ∈ done, lineOk maxW L) →
      lineOk maxW cur → w = sumW cur →
      ∀ L ∈ wrapGo maxW done cur w ts, lineOk maxW L := by
  intro ts
  induction ts with
  | nil =>
    intro done cur w _ _ hdone hcur hw L hL
    rw [wrapGo] at hL
    rcases List.mem_append.mp hL with h | h
    · exact hdone L h
    · simp at h
      exact h ▸ hcur
  | cons t ts ih =>
    intro done cur w hts hcurw hdone hcur hw L hL
    have htw : 0 ≤ t.width := hts t (by simp)
    have hts' : ∀ u ∈ ts, 0 ≤ u.width := fun u hu => hts u (by simp [hu])
    rw [wrapGo] at hL
    by_cases hc : w + t.width > maxW ∧ isBlankL t.text = false
    · rw [if_pos hc] at hL
      refine ih (done ++ [cur]) [t] t.width hts' ?_ ?_ (lineOk_single maxW t) ?_ L hL
      · intro u hu; simp at hu; exact hu ▸ htw
      · intro M hM
        rcases List.mem_append.mp hM with h | h
        · exact hdone M h
        · simp at h; exact h ▸ hcur
      · simp [sumW_cons, sumW_nil]
    · rw [if_neg hc] at hL
      have hd : w + t.width ≤ maxW ∨ isBlankL t.text = true := by
        rcases Decidable.not_and_iff_or_not.mp hc with h | h
        · left; omega
        · right; simpa using h
      have hcur' : lineOk maxW (cur ++ [t]) := by
        rcases hd with hf | hb
        · -- the token fits: the current line cannot be in the oversized case
          rcases hcur with hg | ⟨u, l₂, hEq, hnb, hov, hab⟩
          · left
            rw [goodFrom_append]
            refine ⟨hg, Or.inr ?_⟩
            rw [hw] at hf
            linarith
          · exfalso
            have hl₂ : 0 ≤ sumW l₂ := by
              apply sumW_nonneg
              intro v hv
              exact hcurw v (by rw [hEq]; simp [hv])
            rw [hw, hEq, sumW_cons] at hf
            linarith
        · rcases hcur with hg | ⟨u, l₂, hEq, hnb, hov, hab⟩
          · left
            rw [goodFrom_append]
            exact ⟨hg, Or.inl hb⟩
          · right
            refine ⟨u, l₂ ++ [t], by rw [hEq]; simp, hnb, hov, ?_⟩
            intro v hv
            rcases List.mem_append.mp hv with h | h
            · exact hab v h
            · simp at h; exact h ▸ hb
      refine ih done (cur ++ [t]) (w + t.width) hts' ?_ hdone hcur' ?_ L hL
      · intro u hu
        rcases List.mem_append.mp hu with h | h
        · exact hcurw u h
        · simp at h; exact h ▸ htw
      · rw [sumW_append_single, hw]

/-- C1 (amended): what the greedy wrap of drawRichText guarantees for every
emitted line, for every maximum width and every nonnegative token stream:
every prefix of the line ending at a non-whitespace token fits within the
maximum width, except a line consisting of one oversized non-whitespace token
(followed only by whitespace tokens), which is placed anyway, unsplit.  Only
non-whitespace tokens trigger the overflow check, so trailing whitespace
tokens may push the full cumulative width past the maximum, and the claim's
stronger statement about full cumulative width is refuted separately. -/
theorem wrapTokens_lineOk (maxW : ℤ) (toks : List Token)
    (h : (toks.all fun t => decide (0 ≤ t.width)) = true) :
    ∀ L ∈ wrapTokens maxW toks, lineOk maxW L := by
  have h' : ∀ t ∈ toks, 0 ≤ t.width := by
    intro t ht
    have := List.all_eq_true.mp h t ht
    simpa using this
  exact wrapGo_lineOk maxW toks [] [] 0 h' (by simp) (by simp) (lineOk_nil maxW) rfl

/-- C1 (witness): the amended wrap guarantee applied to the concrete wrapped
output of the line aaaa-space-bbbb at maximum width 4 under Wlen. -/
theorem wrapTokens_lineOk_witness :
    (((lineTokens Wlen Font.regular 1000 (("aaaa bbbb").data)).all fun t =>
        decide (0 ≤ t.width)) = true) ∧
      lineOk 4 [⟨("aaaa").data, false, 4⟩, ⟨[' '], false, 1⟩] :=
  ⟨by decide,
    wrapTokens_lineOk 4 (lineTokens Wlen Font.regular 1000 (("aaaa bbbb").data)) (by decide)
      [⟨("aaaa").data, false, 4⟩, ⟨[' '], false, 1⟩] (by decide)⟩

/-- C1 (counterexample): the wrap of drawRichText on the line aaaa-space-bbbb
at maximum width 4 under the one-centi-point-per-character metric emits a line
whose cumulative measured token width is 5, exceeding the maximum, while no
single token of that line exceeds the maximum: the whitespace token appended
after the fitting word is exempt from the overflow check and overflows the
line. -/
theorem wrap_overflow_counterexample :
    lineWrap Wlen Font.regular 1000 4 (("aaaa bbbb").data) =
      [[⟨("aaaa").data, false, 4⟩, ⟨[' '], false, 1⟩], [⟨("bbbb").data, false, 4⟩]] ∧
    4 < sumW [⟨("aaaa").data, false, 4⟩, ⟨[' '], false, 1⟩] ∧
    (([⟨("aaaa").data, false, 4⟩, ⟨[' '], false, 1⟩] : List Token).all fun u =>
      decide (u.width ≤ 4)) = true := by decide

/-! ## Lemmas on the shape of the wrap output (first line, oversized head) -/

theorem wrapGo_done_append (maxW : ℤ) :
    ∀ (ts : List Token) (ext done : List (List Token)) (cur : List Token) (w : ℤ),
      wrapGo maxW (ext ++ done) cur w ts = ext ++ wrapGo maxW done cur w ts := by
  intro ts
  induction ts with
  | nil =>
    intro ext done cur w
    rw [wrapGo, wrapGo, List.append_assoc]
  | cons t ts ih =>
    intro ext done cur w
    rw [wrapGo, wrapGo]
    by_cases hc : w + t.width > maxW ∧ isBlankL t.text = false
    · rw [if_pos hc, if_pos hc, List.append_assoc]
      exact ih ext (done ++ [cur]) [t] t.width
    · rw [if_neg hc, if_neg hc]
      exact ih ext done (cur ++ [t]) (w + t.width)

theorem wrapGo_blankRun (maxW : ℤ) :
    ∀ (pre : List Token) (done : List (List Token)) (cur : List Token) (w : ℤ)
      (rest : List Token),
      (∀ u ∈ pre, isBlankL u.text = true) →
      wrapGo maxW done cur w (pre ++ rest) =
        wrapGo maxW done (cur ++ pre) (w + sumW pre) rest := by
  intro pre
  induction pre with
  | nil =>
    intro done cur w rest _
    simp [sumW_nil]
  | cons u pre ih =>
    intro done cur w rest hb
    have hu : isBlankL u.text = true := hb u (by simp)
    rw [List.cons_append, wrapGo, if_neg (by simp [hu])]
    rw [ih done (cur ++ [u]) (w + u.width) rest (fun v hv => hb v (by simp [hv]))]
    rw [List.append_assoc, List.singleton_append, sumW_cons, add_assoc]

theorem wrapGo_cons_done (maxW : ℤ) (ts : List Token) (d cur : List Token) (w : ℤ) :
    wrapGo maxW [d] cur w ts = d :: wrapGo maxW [] cur w ts := by
  have h := wrapGo_done_append maxW ts [d] [] cur w
  simpa using h

theorem wrapGo_firstLine (maxW : ℤ) :
    ∀ (ts : List Token) (cur : List Token) (w : ℤ),
      ∃ ext rest2, wrapGo maxW [] cur w ts = (cur ++ ext) :: rest2 := by
  intro ts
  induction ts with
  | nil =>
    intro cur w
    exact ⟨[], [], by rw [wrapGo]; simp⟩
  | cons t ts ih =>
    intro cur w
    rw [wrapGo]
    by_cases hc : w + t.width > maxW ∧ isBlankL t.text = false
    · rw [if_pos hc]
      refine ⟨[], wrapGo maxW [] [t] t.width ts, ?_⟩
      simp only [List.nil_append]
      rw [wrapGo_cons_done]
      simp
    · rw [if_neg hc]
      rcases ih (cur ++ [t]) (w + t.width) with ⟨ext, rest2, hEq⟩
      exact ⟨[t] ++ ext, rest2, by rw [hEq]; simp⟩

/-- C10 (amended): when the first non-whitespace token of a block's token
stream alone exceeds the maximum width, the wrap's first emitted line consists
exactly of the whitespace tokens preceding it — an empty line with no tokens
precisely when the block starts with that token — and the oversized token
starts the second emitted line.  The drawing loop therefore advances the
cursor one extra line height and performs one extra pagination check before
the token is placed. -/
theorem wrapTokens_oversized_firstLine (maxW : ℤ) (pre : List Token) (t : Token)
    (ts : List Token)
    (hpre : (pre.all fun u => isBlankL u.text) = true)
    (hw : (pre.all fun u => decide (0 ≤ u.width)) = true)
    (ht : isBlankL t.text = false)
    (hover : maxW < t.width) :
    (wrapTokens maxW (pre ++ t :: ts)).head? = some pre ∧
      ((wrapTokens maxW (pre ++ t :: ts)).drop 1).head?.map List.head? = some (some t) := by
  have hpre' : ∀ u ∈ pre, isBlankL u.text = true := fun u hu => List.all_eq_true.mp hpre u hu
  have hw' : ∀ u ∈ pre, 0 ≤ u.width := by
    intro u hu
    simpa using List.all_eq_true.mp hw u hu
  have hnn : 0 ≤ sumW pre := sumW_nonneg pre hw'
  unfold wrapTokens
  rw [wrapGo_blankRun maxW pre [] [] 0 (t :: ts) hpre']
  rw [wrapGo, if_pos ⟨by omega, ht⟩]
  simp only [List.nil_append]
  rw [wrapGo_cons_done]
  rcases wrapGo_firstLine maxW ts [t] t.width with ⟨ext, rest2, hEq⟩
  rw [hEq]
  simp

/-- C10 (witness): the amended first-line description applied to a concrete
stream of one whitespace token followed by an oversized token. -/
theorem wrapTokens_oversized_firstLine_witness :
    (([⟨[' '], false, 1⟩] : List Token).all fun u => isBlankL u.text) = true ∧
    isBlankL ['W'] = false ∧ (49528 : ℤ) < 100000 ∧
    (wrapTokens 49528 ([⟨[' '], false, 1⟩] ++ ⟨['W'], false, 100000⟩ :: [])).head? =
      some [⟨[' '], false, 1⟩] :=
  ⟨by decide, by decide, by decide,
    (wrapTokens_oversized_firstLine 49528 [⟨[' '], false, 1⟩] ⟨['W'], false, 100000⟩ []
      (by decide) (by decide) (by decide) (by decide)).1⟩

/-- C10 (counterexample): for the block text space-W, whose first
non-whitespace token W alone exceeds the maximum rich-text width under Wwide,
the line emitted before the oversized token is not an empty line: it carries
the leading empty-string and whitespace tokens of the block. -/
theorem wrap_leadingWs_counterexample :
    lineWrap Wwide Font.regular 1000 maxWidthRich ([' ', 'W']) =
      [[⟨[], false, 0⟩, ⟨[' '], false, 1⟩], [⟨['W'], false, 100000⟩]] ∧
    maxWidthRich < 100000 ∧ isBlankL ['W'] = false ∧
    ([(⟨[], false, 0⟩ : Token), ⟨[' '], false, 1⟩] ≠ []) := by decide

/-! ## Placement and pagination lemmas -/

theorem placeRun_mem (pid : Nat) (y size : ℤ) (color : ColorKind) :
    ∀ (items : List (Line × Font × ℤ)) (x : ℤ) (p : Placement),
      p ∈ placeRun pid y size color x items → p.y = y ∧ p.pageIdx = pid := by
  intro items
  induction items with
  | nil =>
    intro x p hp
    simp [placeRun] at hp
  | cons it items ih =>
    intro x p hp
    rcases it with ⟨t, f, w⟩
    rw [placeRun] at hp
    rcases List.mem_cons.mp hp with h | h
    · rw [h]
      exact ⟨rfl, rfl⟩
    · exact ih (x + w) p h

theorem pageBreak_placed (st : LayoutState) : (pageBreakIfNeeded st).placed = st.placed := by
  unfold pageBreakIfNeeded
  split <;> rfl

theorem pageBreak_cy (st : LayoutState) : margin + 2000 ≤ (pageBreakIfNeeded st).cy := by
  unfold pageBreakIfNeeded
  split
  · show margin + 2000 ≤ pageHeight - margin
    decide
  · omega

theorem drawWrappedLine_mem (opts : DrawOpts) (st : LayoutState) (L : List Token)
    (p : Placement) (hp : p ∈ (drawWrappedLine opts st L).placed) :
    p ∈ st.placed ∨ margin + 2000 ≤ p.y := by
  unfold drawWrappedLine at hp
  simp only at hp
  rcases List.mem_append.mp hp with h | h
  · left
    rwa [pageBreak_placed] at h
  · right
    have h2 := (placeRun_mem _ _ _ _ _ _ p h).1
    rw [h2]
    exact pageBreak_cy st

theorem foldl_drawWrappedLine_mem (opts : DrawOpts) :
    ∀ (lns : List (List Token)) (st : LayoutState) (p : Placement),
      p ∈ (lns.foldl (drawWrappedLine opts) st).placed →
      p ∈ st.placed ∨ margin + 2000 ≤ p.y := by
  intro lns
  induction lns with
  | nil =>
    intro st p hp
    left
    simpa using hp
  | cons L lns ih =>
    intro st p hp
    rw [List.foldl_cons] at hp
    rcases ih (drawWrappedLine opts st L) p hp with h | h
    · exact drawWrappedLine_mem opts st L p h
    · exact Or.inr h

/-- C2 (amended): within drawRichText every text run - wrapped body lines and
header lines alike - is placed at a vertical position of at least the bottom
margin plus 20 points, because the pagination check precedes every wrapped
line; so no drawRichText run is ever placed below the bottom margin without a
new page.  The bullet branch, by contrast, places its bullet glyph and each
bullet's first wrapped line (and the final flushed line when no overflow
occurred) at the entry cursor with no page check at all, and that cursor can
lie below the bottom margin, as the counterexample shows. -/
theorem drawRichText_above_margin (W : WidthFn) (opts : DrawOpts) (st : LayoutState)
    (text : Line) (p : Placement) (hp : p ∈ (drawRichText W opts st text).placed) :
    p ∈ st.placed ∨ margin + 2000 ≤ p.y := by
  unfold drawRichText at hp
  simp only at hp
  exact foldl_drawWrappedLine_mem opts _ st p hp

/-- C2 (witness): the placement drawRichText makes for a short body line from
the initial export state sits above the bottom margin. -/
theorem drawRichText_above_margin_witness :
    hiPlacement ∈ (drawRichText Wlen bodyOpts st0 (['h', 'i'])).placed ∧
      (hiPlacement ∈ st0.placed ∨ margin + 2000 ≤ hiPlacement.y) :=
  ⟨by decide, drawRichText_above_margin Wlen bodyOpts st0 (['h', 'i']) hiPlacement (by decide)⟩

/-- C2 (counterexample): a whole export pass over ninety-three blank lines
followed by one bullet line places the bullet glyph (a text run) strictly
below the bottom margin while the page count is still 1, so no new page was
ever allocated: blank lines lower the cursor with no check, and the bullet
branch draws its glyph at the entry cursor before any pagination check. -/
theorem bulletGlyph_below_margin_counterexample :
    ((handleDownloadPDF Wlen blanksThenBullet).map fun st =>
      (st.pages, st.placed.any fun p => decide (p.text = ['•']) && decide (p.y < margin))) =
      some (1, true) := by decide

/-- C3 (amended): the pagination rule of drawRichText compares the cursor
against the fixed threshold of the bottom margin plus 20 points - not the
bottom margin plus one line height of the font size in effect.  When the
cursor is below that fixed threshold, a new page is allocated before
placement, every run of the line lands on the new page, and the new page's
vertical cursor (the baseline of those runs) equals exactly the page height
minus the top margin. -/
theorem drawWrappedLine_pagebreak (opts : DrawOpts) (st : LayoutState) (L : List Token)
    (h : st.cy < margin + 2000) :
    (drawWrappedLine opts st L).pages = st.pages + 1 ∧
      ∀ p ∈ (drawWrappedLine opts st L).placed,
        p ∈ st.placed ∨ (p.y = pageHeight - margin ∧ p.pageIdx = st.pages) := by
  have hpb : pageBreakIfNeeded st =
      { st with pages := st.pages + 1, cy := pageHeight - margin } := by
    unfold pageBreakIfNeeded
    rw [if_pos h]
  constructor
  · unfold drawWrappedLine
    simp only [hpb]
  · intro p hp
    unfold drawWrappedLine at hp
    simp only at hp
    rcases List.mem_append.mp hp with h1 | h1
    · left
      rwa [pageBreak_placed] at h1
    · right
      have h2 := placeRun_mem _ _ _ _ _ _ p h1
      rw [hpb] at h2
      simpa using h2

/-- C3 (witness): the pagination rule applied to a state whose cursor has
reached the page bottom: the page count rises and the placed run sits exactly
at the top margin of the new page. -/
theorem drawWrappedLine_pagebreak_witness :
    stLow.cy < margin + 2000 ∧
    (drawWrappedLine bodyOpts stLow [xTok]).pages = stLow.pages + 1 ∧
    xPlacement ∈ (drawWrappedLine bodyOpts stLow [xTok]).placed ∧
    (xPlacement ∈ stLow.placed ∨
      (xPlacement.y = pageHeight - margin ∧ xPlacement.pageIdx = stLow.pages)) :=
  ⟨by decide,
    (drawWrappedLine_pagebreak bodyOpts stLow [xTok] (by decide)).1,
    by decide,
    (drawWrappedLine_pagebreak bodyOpts stLow [xTok] (by decide)).2 xPlacement (by decide)⟩

/-- C3 (counterexample): a whole export pass over ninety blank lines followed
by one size-22 title places the title's wrapped line with the cursor at
71.89 points - remaining space below the bottom margin plus one line height
(50 + 33 points) for that size - yet no new page is allocated (the page count
stays 1), because the code's threshold is the fixed 70 points, not the
size-dependent one the claim states. -/
theorem pagination_threshold_counterexample :
    ((handleDownloadPDF Wlen blanksThenTitle).map fun st =>
      (st.pages, st.placed.any fun p =>
        decide (p.size = 2200) && decide (p.y = 7189) &&
        decide (p.y < margin + p.size * 3 / 2))) = some (1, true) := by decide

/-! ## Response handling of optimizeResume (C4) -/

/-- C4 (amended): optimizeResume rejects exactly when the (defaulted)
response text fails to parse as JSON; a successfully parsed response value is
returned as the result with no validation of the required fields, so a
response missing every required field is returned as a partial result object
rather than raising a failure. -/
theorem optimizeResume_unvalidated (parse : Line → Option Json) (rt : Option Line) (j : Json)
    (hp : parse (resolveResponseText rt) = some j) (hf : hasRequiredFields j = false) :
    optimizeResume parse rt = Except.ok j := by
  unfold optimizeResume
  rw [hp]

/-- C4 (witness): the amended behavior on the concrete response with no text:
the empty-object fallback parses, lacks every required field, and is returned
as a success. -/
theorem optimizeResume_unvalidated_witness :
    parseEmptyObj (resolveResponseText none) = some (Json.obj []) ∧
    hasRequiredFields (Json.obj []) = false ∧
    optimizeResume parseEmptyObj none = Except.ok (Json.obj []) :=
  ⟨rfl, rfl, optimizeResume_unvalidated parseEmptyObj none (Json.obj []) rfl rfl⟩

/-- C4 (counterexample): a response whose text is absent is replaced by the
empty-object literal, parses to an object missing all four required fields
(optimizedContent, keyChanges, suggestedSkills, atsScore), and optimizeResume
returns it as a success instead of rejecting. -/
theorem optimizeResume_missing_fields :
    optimizeResume parseEmptyObj none = Except.ok (Json.obj []) ∧
      hasRequiredFields (Json.obj []) = false := ⟨rfl, rfl⟩

/-! ## Failure path of handleOptimize (C5) -/

/-- C5 (confirmed): for every failed optimization request - the optimizeResume
call throws with any message - handleOptimize leaves the editor content, the
stored result and the current step unchanged, stores no partial result, and
surfaces exactly one error message (the thrown message, or the default when it
is empty); loading is reset by the finally clause. -/
theorem handleOptimize_failure_preserves (s : AppState) (m : Line)
    (h1 : trimL s.inputContent ≠ []) (h2 : trimL s.targetTitle ≠ []) :
    (handleOptimize (Except.error m) s).inputContent = s.inputContent ∧
    (handleOptimize (Except.error m) s).result = s.result ∧
    (handleOptimize (Except.error m) s).step = s.step ∧
    (handleOptimize (Except.error m) s).error =
      some (if m.isEmpty then optimizeFailedMsg else m) ∧
    (handleOptimize (Except.error m) s).loading = false := by
  unfold handleOptimize
  rw [if_neg (not_or.mpr ⟨h1, h2⟩)]
  exact ⟨rfl, rfl, rfl, rfl, rfl⟩

/-- C5 (witness): the failure path on a concrete filled-in state with a
nonempty thrown message keeps content, result and step and stores only the
message. -/
theorem handleOptimize_failure_preserves_witness :
    trimL sampleState.inputContent ≠ [] ∧ trimL sampleState.targetTitle ≠ [] ∧
    (handleOptimize (Except.error ['e']) sampleState).inputContent = sampleState.inputContent ∧
    (handleOptimize (Except.error ['e']) sampleState).result = sampleState.result ∧
    (handleOptimize (Except.error ['e']) sampleState).step = sampleState.step ∧
    (handleOptimize (Except.error ['e']) sampleState).error =
      some (if (['e'] : Line).isEmpty then optimizeFailedMsg else ['e']) :=
  ⟨by decide, by decide,
    (handleOptimize_failure_preserves sampleState ['e'] (by decide) (by decide)).1,
    (handleOptimize_failure_preserves sampleState ['e'] (by decide) (by decide)).2.1,
    (handleOptimize_failure_preserves sampleState ['e'] (by decide) (by decide)).2.2.1,
    (handleOptimize_failure_preserves sampleState ['e'] (by decide) (by decide)).2.2.2.1⟩

/-! ## The contact-info lookback (C6) -/

/-- C6 (amended): the contact-info decision is a pure function of the line
array and the index, looking back exactly one line - but it tests whether the
raw, untrimmed previous line literally starts with the title marker, while
the title branch itself classifies lines after trimming.  Whenever the
previous line carries no surrounding whitespace (it equals its own trim), the
two tests coincide: the body line is styled as centered contact info exactly
when the line exists (index positive) and the previous line is a title line. -/
theorem isContactLine_amended (lines : List Line) (i : Nat)
    (h : trimL (lines.getD (i - 1) []) = lines.getD (i - 1) []) :
    isContactLine lines i = (decide (0 < i) && isTitleLine (lines.getD (i - 1) [])) := by
  unfold isContactLine isTitleLine
  rw [h]

/-- C6 (witness): on a title line with no surrounding whitespace followed by
a body line, the coded lookback agrees with the title classification. -/
theorem isContactLine_amended_witness :
    trimL (titleThenBody.getD 0 []) = titleThenBody.getD 0 [] ∧
    isContactLine titleThenBody 1 =
      (decide (0 < 1) && isTitleLine (titleThenBody.getD 0 [])) :=
  ⟨by decide, isContactLine_amended titleThenBody 1 (by decide)⟩

/-- C6 (counterexample): the input whose first line is space-hash-space-T is
classified and rendered as a title (its trim starts with the title marker, and
the export places it at size 22), yet the following body line is rendered
left-aligned at the margin in black, not centered and muted: the lookback
reads the raw previous line, whose first character is a space, and misses the
marker. -/
theorem contact_lookback_counterexample :
    isTitleLine ([' ', '#', ' ', 'T']) = true ∧
    ((handleDownloadPDF Wlen indentedTitleThenBody).map fun st =>
      (st.placed.any fun p => decide (p.text = ['T']) && decide (p.size = 2200)) &&
      (st.placed.any fun p => decide (p.text = ['b']) && decide (p.x = margin) &&
        decide (p.color = ColorKind.black))) = some true := by decide

/-! ## Empty-content guard of the export (C8) -/

/-- C8 (confirmed): for every content that is empty or whitespace-only, the
export returns before any page is allocated: no document state is produced at
all, so no page exists and no text is placed. -/
theorem handleDownloadPDF_empty (W : WidthFn) (content : Line)
    (h : trimL content = []) :
    handleDownloadPDF W content = none := by
  unfold handleDownloadPDF
  rw [if_pos h]

/-- C8 (witness): whitespace-only content aborts the export. -/
theorem handleDownloadPDF_empty_witness :
    trimL ([' ', '\n', ' ']) = [] ∧ handleDownloadPDF Wlen ([' ', '\n', ' ']) = none :=
  ⟨by decide, handleDownloadPDF_empty Wlen ([' ', '\n', ' ']) (by decide)⟩

/-! ## File-upload extension dispatch (C9) -/

/-- C9 (amended): only the alternative implementation in src/unnamed/part_001
rejects a file whose lowercased name ends in none of .pdf, .docx, .txt, .md;
the handleFileUpload of src/App.tsx routes every file that is not .pdf or
.docx - whatever its extension - to plain text decoding and accepts the
decoded text into the editor, with no rejection branch. -/
theorem unsupported_extension_routes (fileName : Line)
    (h : (pdfExt.isSuffixOf (lowerL fileName) || docxExt.isSuffixOf (lowerL fileName) ||
          txtExt.isSuffixOf (lowerL fileName) || mdExt.isSuffixOf (lowerL fileName)) = false) :
    handleFileUploadVariant fileName = ExtractRoute.rejectRoute ∧
      handleFileUpload fileName = ExtractRoute.textRoute := by
  simp only [Bool.or_eq_false_iff] at h
  obtain ⟨⟨⟨hpdf, hdocx⟩, htxt⟩, hmd⟩ := h
  unfold handleFileUploadVariant handleFileUpload
  simp [hpdf, hdocx, htxt, hmd]

/-- C9 (witness): a file named a.exe is rejected by the part_001 variant and
text-decoded by src/App.tsx. -/
theorem unsupported_extension_routes_witness :
    (pdfExt.isSuffixOf (lowerL (("a.exe").data)) ||
     docxExt.isSuffixOf (lowerL (("a.exe").data)) ||
     txtExt.isSuffixOf (lowerL (("a.exe").data)) ||
     mdExt.isSuffixOf (lowerL (("a.exe").data))) = false ∧
    handleFileUploadVariant (("a.exe").data) = ExtractRoute.rejectRoute ∧
    handleFileUpload (("a.exe").data) = ExtractRoute.textRoute :=
  ⟨by decide,
    (unsupported_extension_routes (("a.exe").data) (by decide)).1,
    (unsupported_extension_routes (("a.exe").data) (by decide)).2⟩

/-- C9 (counterexample): src/App.tsx accepts a file named resume.exe - an
extension outside .pdf, .docx, .txt, .md - into the plain-text decoding
branch instead of rejecting it. -/
theorem handleFileUpload_accepts_exe :
    handleFileUpload (("resume.exe").data) = ExtractRoute.textRoute ∧
    handleFileUpload (("resume.exe").data) ≠ ExtractRoute.rejectRoute := by decide

/-! ## Soundness of the inline-span splitter (C7) -/

theorem closeStars_sound :
    ∀ (l inner rest : Line), closeStars l = some (inner, rest) →
      l = inner ++ '*' :: '*' :: rest := by
  intro l
  induction l with
  | nil =>
    intro inner rest h
    simp [closeStars] at h
  | cons c1 tl ih =>
    intro inner rest h
    cases tl with
    | nil =>
      simp [closeStars] at h
    | cons c2 tl2 =>
      rw [closeStars] at h
      by_cases hstar : c1 = '*' ∧ c2 = '*'
      · rw [if_pos hstar] at h
        injection h with h
        injection h with h1 h2
        rw [← h1, ← h2, hstar.1, hstar.2]
        rfl
      · rw [if_neg hstar] at h
        by_cases hnl : c1 = '\n' ∨ c1 = '\r'
        · rw [if_pos hnl] at h
          exact absurd h (by simp)
        · rw [if_neg hnl] at h
          rcases Option.map_eq_some'.mp h with ⟨⟨inner2, rest2⟩, hcs, hp⟩
          have hp1 : c1 :: inner2 = inner := congrArg Prod.fst hp
          have hp2 : rest2 = rest := congrArg Prod.snd hp
          rw [← hp1, ← hp2, List.cons_append, ← ih inner2 rest2 hcs]

theorem matchAt_sound (l piece rest2 : Line) (h : matchAt l = some (piece, rest2)) :
    (∃ inner, piece = '*' :: '*' :: (inner ++ ['*', '*'])) ∧ l = piece ++ rest2 := by
  cases l with
  | nil => simp [matchAt] at h
  | cons c1 tl =>
    cases tl with
    | nil => simp [matchAt] at h
    | cons c2 rest =>
      rw [matchAt] at h
      by_cases hstar : c1 = '*' ∧ c2 = '*'
      · rw [if_pos hstar] at h
        rcases Option.map_eq_some'.mp h with ⟨⟨inner, r2⟩, hcs, hp⟩
        have hp1 : '*' :: '*' :: (inner ++ ['*', '*']) = piece := congrArg Prod.fst hp
        have hp2 : r2 = rest2 := congrArg Prod.snd hp
        have hrest := closeStars_sound rest inner r2 hcs
        refine ⟨⟨inner, hp1.symm⟩, ?_⟩
        rw [← hp1, ← hp2, hstar.1, hstar.2, hrest]
        simp
      · rw [if_neg hstar] at h
        exact absurd h (by simp)

theorem matchAt_length (l piece rest2 : Line) (h : matchAt l = some (piece, rest2)) :
    rest2.length + 4 ≤ l.length := by
  rcases matchAt_sound l piece rest2 h with ⟨⟨inner, hpiece⟩, hsplit⟩
  rw [hsplit, hpiece]
  simp only [List.length_append, List.length_cons, List.length_nil]
  omega

theorem splitBoldGoF_flatten :
    ∀ (fuel : Nat) (s acc : Line), s.length < fuel →
      ((splitBoldGoF fuel acc s).map Prod.fst).flatten = acc.reverse ++ s := by
  intro fuel
  induction fuel with
  | zero =>
    intro s acc h
    omega
  | succ fuel ih =>
    intro s acc h
    cases s with
    | nil => simp [splitBoldGoF]
    | cons c rest =>
      cases hm : matchAt (c :: rest) with
      | none =>
        rw [splitBoldGoF, hm]
        rw [ih rest (c :: acc) (by simp at h ⊢; omega)]
        simp
      | some pr =>
        rcases pr with ⟨piece, rest2⟩
        have hlen : rest2.length < fuel := by
          have := matchAt_length _ _ _ hm
          simp only [List.length_cons] at this h
          omega
        rw [splitBoldGoF, hm]
        simp only [List.map_cons, List.flatten_cons]
        rw [ih rest2 [] hlen]
        rw [(matchAt_sound _ _ _ hm).2]
        simp

theorem splitBoldGoF_shape :
    ∀ (fuel : Nat) (s acc : Line) (p : Line × Bool), s.length < fuel →
      p ∈ splitBoldGoF fuel acc s → p.2 = true →
      ∃ inner, p.1 = '*' :: '*' :: (inner ++ ['*', '*']) := by
  intro fuel
  induction fuel with
  | zero =>
    intro s acc p h
    omega
  | succ fuel ih =>
    intro s acc p h hp htag
    cases s with
    | nil =>
      rw [splitBoldGoF] at hp
      simp at hp
      rw [hp] at htag
      simp at htag
    | cons c rest =>
      cases hm : matchAt (c :: rest) with
      | none =>
        rw [splitBoldGoF, hm] at hp
        exact ih rest (c :: acc) p (by simp at h ⊢; omega) hp htag
      | some pr =>
        rcases pr with ⟨piece, rest2⟩
        have hlen : rest2.length < fuel := by
          have := matchAt_length _ _ _ hm
          simp only [List.length_cons] at this h
          omega
        rw [splitBoldGoF, hm] at hp
        rcases List.mem_cons.mp hp with h1 | hp2
        · rw [h1] at htag
          simp at htag
        · rcases List.mem_cons.mp hp2 with h2 | h3
          · rcases (matchAt_sound _ _ _ hm).1 with ⟨inner, hpiece⟩
            exact ⟨inner, by rw [h2]; exact hpiece⟩
          · exact ih rest2 [] p hlen h3 htag

theorem splitBoldTagged_flatten (l : Line) :
    ((splitBoldTagged l).map Prod.fst).flatten = l := by
  have h := splitBoldGoF_flatten (l.length + 1) l [] (Nat.lt_succ_self _)
  simpa using h

theorem splitBoldTagged_shape (l : Line) (p : Line × Bool)
    (hp : p ∈ splitBoldTagged l) (htag : p.2 = true) :
    ∃ inner, p.1 = '*' :: '*' :: (inner ++ ['*', '*']) :=
  splitBoldGoF_shape (l.length + 1) l [] p (Nat.lt_succ_self _) hp htag

theorem isBoldSeg_of_shape (inner : Line) :
    isBoldSeg ('*' :: '*' :: (inner ++ ['*', '*'])) = true := by
  unfold isBoldSeg
  refine Bool.and_eq_true_iff.mpr ⟨?_, ?_⟩
  · simp [List.isPrefixOf]
  · unfold List.isSuffixOf
    rw [show ('*' :: '*' :: (inner ++ ['*', '*'])) = ('*' :: '*' :: inner) ++ ['*', '*'] by simp]
    rw [List.reverse_append]
    simp [List.isPrefixOf]

theorem cleanSeg_of_shape (inner : Line) :
    cleanSeg ('*' :: '*' :: (inner ++ ['*', '*'])) = inner := by
  unfold cleanSeg
  rw [show ('*' :: '*' :: (inner ++ ['*', '*'])).drop 2 = inner ++ ['*', '*'] from rfl]
  rw [show ('*' :: '*' :: (inner ++ ['*', '*'])).length - 4 = inner.length by
    simp only [List.length_cons, List.length_append, List.length_nil]
    omega]
  rw [List.take_left]

theorem reconSpan_of_piece (p : Line × Bool) (l : Line)
    (hmem : p ∈ splitBoldTagged l)
    (H : tagsConsistent l = true)
    (hne : p.1 ≠ []) :
    reconSpan (spanOfSeg p.1) = p.1 := by
  cases htag : p.2 with
  | true =>
    rcases splitBoldTagged_shape l p hmem htag with ⟨inner, hpiece⟩
    rw [hpiece]
    unfold spanOfSeg
    rw [if_pos (isBoldSeg_of_shape inner), cleanSeg_of_shape inner]
    rfl
  | false =>
    have hb := List.all_eq_true.mp H p hmem
    rw [htag] at hb
    simp at hb
    have hbold : isBoldSeg p.1 = false := by
      rcases hb with hb | hb
      · exact absurd hb hne
      · exact hb
    unfold spanOfSeg
    rw [if_neg (by simp [hbold])]
    rfl

theorem join_recon_pieces :
    ∀ (tl : List (Line × Bool)),
      (∀ p ∈ tl, p.1 ≠ [] → reconSpan (spanOfSeg p.1) = p.1) →
      ((((tl.map Prod.fst).filter fun s => !s.isEmpty).map
          fun seg => reconSpan (spanOfSeg seg)).flatten) = (tl.map Prod.fst).flatten := by
  intro tl
  induction tl with
  | nil =>
    intro _
    rfl
  | cons p tl ih =>
    intro hgood
    have htl : ∀ q ∈ tl, q.1 ≠ [] → reconSpan (spanOfSeg q.1) = q.1 :=
      fun q hq => hgood q (by simp [hq])
    cases hemp : p.1.isEmpty with
    | true =>
      have hnil : p.1 = [] := by simpa using hemp
      simp only [List.map_cons, List.filter_cons, hemp, Bool.not_true, List.flatten_cons]
      rw [if_neg (by simp)]
      rw [ih htl]
      rw [hnil]
      rfl
    | false =>
      have hne : p.1 ≠ [] := by
        intro hc
        rw [hc] at hemp
        simp at hemp
      simp only [List.map_cons, List.filter_cons, hemp, Bool.not_false, List.flatten_cons,
        if_true]
      rw [ih htl, hgood p (by simp) hne]

/-- C7 (amended): for every raw line whose unmatched split segments do not
themselves both start and end with the double-asterisk delimiter (the only
such segments are the literal two- and three-asterisk runs), the span
splitter behaves as specified: exactly the text inside non-overlapping
paired-delimiter substrings is tagged bold with the delimiters removed,
everything outside is tagged regular and kept literally, and re-inserting the
delimiters around the bold spans reconstructs the input line exactly - so the
concatenation of emitted span texts is the input with precisely the paired
delimiters removed.  On the excluded segments the renderer misclassifies the
unmatched markers as an empty bold span and drops them, as the counterexample
shows. -/
theorem spansOf_reconstruct (l : Line) (H : tagsConsistent l = true) :
    ((spansOf l).map reconSpan).flatten = l := by
  unfold spansOf segmentsOf splitBoldPieces
  rw [List.map_map]
  have hgood : ∀ p ∈ splitBoldTagged l, p.1 ≠ [] → reconSpan (spanOfSeg p.1) = p.1 :=
    fun p hp hne => reconSpan_of_piece p l hp H hne
  have h := join_recon_pieces (splitBoldTagged l) hgood
  rw [show (reconSpan ∘ spanOfSeg : Line → Line) = fun seg => reconSpan (spanOfSeg seg)
    from rfl]
  rw [h]
  exact splitBoldTagged_flatten l

/-- C7 (witness): a line with one genuinely paired bold substring and regular
text around it reconstructs exactly after re-inserting the delimiters. -/
theorem spansOf_reconstruct_witness :
    tagsConsistent (("a **b** c").data) = true ∧
    ((spansOf (("a **b** c").data)).map reconSpan).flatten = ("a **b** c").data :=
  ⟨by decide, spansOf_reconstruct (("a **b** c").data) (by decide)⟩

/-- C7 (counterexample): the line consisting of exactly two asterisks
contains no paired-delimiter match at any position, yet its single unmatched
segment passes the startsWith and endsWith tests, is tagged bold, and its
marker characters are dropped: the emitted spans are one empty bold span, the
unmatched markers are not kept as literal regular text, and the concatenation
of emitted span texts differs from the input although no paired delimiters
exist to remove. -/
theorem spansOf_counterexample :
    spansOf (['*', '*']) = [⟨[], true⟩] ∧
    hasPairedDelims (['*', '*']) = false ∧
    ((spansOf (['*', '*'])).map Span.text).flatten ≠ ['*', '*'] := by decide

end ResuMaster
